import Mathlib

/-!
# Verification of the Twitch chat translation pipeline

A shallow embedding, in Lean 4, of the core ingestion-and-scheduling pipeline
of the GeminiTwitchExtension repository:

* the eligibility classifier (`src/utils/utils.js` ratio helpers and
  `src/utils/language.js` `shouldTranslate` / `shouldTranslateBasedOnMode`);
* the content-script message pipeline (`src/content/content.js`
  `processChatMessage`, `handleChannelChange`, and the grace-period flags of
  `src/utils/session.js`);
* the two request-queue implementations (the counter-based and the batch-based
  queues of the request-queue module);
* the LRU cache (`src/utils/cache.js`) and the two background translation
  caches (`src/background/modules/cache.js` and
  `src/background/modules/settings.js`).

JavaScript `Map`s are embedded as association lists in insertion order
(`Map.set` on an existing key updates the value in place; on a fresh key it
appends).  Texts are lists of characters; machine time is a `Nat` number of
milliseconds passed explicitly to every operation that reads `Date.now()`.
Ratios computed with floating-point division in the source are embedded as
exact rationals.
-/

namespace TwitchTranslator

/-! ## Character classes (src/unnamed/part_008, `getJapaneseRatio`,
`getEnglishRatio`, `getContentCharsCount`) -/

/-- Membership of a code point in an inclusive range. -/
def inRange (lo hi n : Nat) : Bool :=
  decide (lo ≤ n ∧ n ≤ hi)

/-- The character class `[぀-ゟ゠-ヿ一-龯]` used by
`getJapaneseRatio`. -/
def isJapaneseChar (c : Char) : Bool :=
  inRange 0x3040 0x309F c.toNat || inRange 0x30A0 0x30FF c.toNat ||
  inRange 0x4E00 0x9FAF c.toNat

/-- The character class `[a-zA-Z]` used by `getEnglishRatio`. -/
def isEnglishChar (c : Char) : Bool :=
  inRange 0x41 0x5A c.toNat || inRange 0x61 0x7A c.toNat

/-- The JavaScript regular-expression class `\s` (whitespace). -/
def isWhitespaceChar (c : Char) : Bool :=
  inRange 0x9 0xD c.toNat || c.toNat = 0x20 || c.toNat = 0xA0 ||
  c.toNat = 0x1680 || inRange 0x2000 0x200A c.toNat ||
  c.toNat = 0x2028 || c.toNat = 0x2029 || c.toNat = 0x202F ||
  c.toNat = 0x205F || c.toNat = 0x3000 || c.toNat = 0xFEFF

/-- The JavaScript regular-expression class `\d` (ASCII digits). -/
def isDigitChar (c : Char) : Bool :=
  inRange 0x30 0x39 c.toNat

/-- The Unicode punctuation class `\p{P}` of the source's
`/[\s\d\p{P}]/gu` regular expression, restricted to the ASCII, general,
CJK and full-width punctuation ranges. -/
def isPunctuationChar (c : Char) : Bool :=
  inRange 0x21 0x23 c.toNat || inRange 0x25 0x2A c.toNat ||
  inRange 0x2C 0x2F c.toNat || inRange 0x3A 0x3B c.toNat ||
  inRange 0x3F 0x40 c.toNat || inRange 0x5B 0x5D c.toNat ||
  c.toNat = 0x5F || c.toNat = 0x7B || c.toNat = 0x7D ||
  inRange 0x2010 0x2027 c.toNat || inRange 0x2030 0x205E c.toNat ||
  inRange 0x3001 0x3003 c.toNat || inRange 0x3008 0x3011 c.toNat ||
  inRange 0x3014 0x301F c.toNat || c.toNat = 0x30FB ||
  inRange 0xFF01 0xFF03 c.toNat || inRange 0xFF05 0xFF0A c.toNat ||
  inRange 0xFF0C 0xFF0F c.toNat || inRange 0xFF1A 0xFF1B c.toNat ||
  inRange 0xFF1F 0xFF20 c.toNat || inRange 0xFF3B 0xFF3D c.toNat ||
  c.toNat = 0xFF3F || c.toNat = 0xFF5B || c.toNat = 0xFF5D

/-- The class `[\s\d\p{P}]` matched by `getContentCharsCount`. -/
def isSymbolOrSpace (c : Char) : Bool :=
  isWhitespaceChar c || isDigitChar c || isPunctuationChar c

/-- `getJapaneseRatio` (src/unnamed/part_008): count of Japanese-script
characters over the text length, `0` for empty text. -/
def getJapaneseRatio (text : List Char) : ℚ :=
  if text.length = 0 then 0
  else (text.countP isJapaneseChar : ℚ) / (text.length : ℚ)

/-- `getEnglishRatio` (src/unnamed/part_008): count of Latin-alphabet
characters over the text length, `0` for empty text. -/
def getEnglishRatio (text : List Char) : ℚ :=
  if text.length = 0 then 0
  else (text.countP isEnglishChar : ℚ) / (text.length : ℚ)

/-- `getContentCharsCount` (src/unnamed/part_008): text length minus the
number of whitespace, digit and punctuation characters. -/
def getContentCharsCount (text : List Char) : Nat :=
  text.length - text.countP isSymbolOrSpace

/-! ## Settings (src/unnamed/part_008 `getDefaultSettings` fields used by the
classifier and the content pipeline) -/

/-- The settings fields consumed by the classifier and by
`processChatMessage`.  `translationMode` is the raw string switched on by
`shouldTranslateBasedOnMode`. -/
structure Settings where
  translationMode : String
  japaneseThreshold : ℚ
  englishThreshold : ℚ
  processExistingMessages : Bool
  deriving Repr, DecidableEq

/-! ## Eligibility classifier (src/utils/language.js) -/

/-- `isEnglishText` (src/utils/language.js): the Latin-alphabet ratio is at
least one half. -/
def isEnglishText (text : List Char) : Bool :=
  decide ((1 : ℚ) / 2 ≤ getEnglishRatio text)

/-- `shouldTranslate` (src/utils/language.js): the selective-mode
eligibility decision.  Empty text is rejected first; then the Japanese
ratio, the English ratio, the substantive-character count and finally the
character-count comparison are consulted, in the source's order. -/
def shouldTranslate (text : List Char) (s : Settings) : Bool :=
  if text.length = 0 then false
  else if s.japaneseThreshold / 100 ≤ getJapaneseRatio text then false
  else if s.englishThreshold / 100 ≤ getEnglishRatio text then true
  else if getContentCharsCount text < 3 then false
  else if getJapaneseRatio text * (text.length : ℚ) <
      getEnglishRatio text * (text.length : ℚ) then true
  else false

/-- `shouldTranslateBasedOnMode` (src/utils/language.js): switch on the
translation mode; `"all"` is always eligible, `"english"` uses
`isEnglishText`, everything else falls through to `shouldTranslate`. -/
def shouldTranslateBasedOnMode (text : List Char) (s : Settings) : Bool :=
  if s.translationMode = "all" then true
  else if s.translationMode = "english" then isEnglishText text
  else shouldTranslate text s

/-- Modelled from the spec: the ordered selective-mode rule exactly as the
specification words it — native ratio at or above the native threshold means
not eligible; else foreign ratio at or above the foreign threshold means
eligible; else fewer than 3 substantive characters means not eligible; else
eligible iff the foreign-character count exceeds the native-character count.
Stated for comparison with the embedded `shouldTranslate`. -/
def selectiveRule (text : List Char) (s : Settings) : Bool :=
  if s.japaneseThreshold / 100 ≤ getJapaneseRatio text then false
  else if s.englishThreshold / 100 ≤ getEnglishRatio text then true
  else if getContentCharsCount text < 3 then false
  else if text.countP isJapaneseChar < text.countP isEnglishChar then true
  else false

/-! ## Content-script message pipeline (src/content/content.js,
src/utils/session.js, src/utils/domObserver.js)

`processChatMessage` is embedded as a pure decision function from the
content-script state and the observed message node to an optional translate
request (`sendTranslationRequest` call); the continuation that runs when the
asynchronous translation settles is a separate state update, because the
`translatedComments` mark is written only after the `await`.  The
sessionStorage flags of src/utils/session.js are fields of the state.  The
`generation` field is a ghost counter of `handleChannelChange` executions
(the source keeps no such counter); it tags every emitted request so the
specification's generation-indexed properties can be stated. -/

/-- A chat message node as `processChatMessage` inspects it: the
`_isNewMessage` / `_isExistingMessage` marks, node kind, the results of
`getMessageElement`, `getMessageId` and `extractMessageText`. -/
structure MessageNode where
  isNewMessage : Bool
  isExistingMessage : Bool
  isElementNode : Bool
  isTranslationElement : Bool
  hasMessageElement : Bool
  messageId : String
  text : List Char
  deriving Repr, DecidableEq

/-- The content-script state: the module-level variables of content.js, the
sessionStorage flags of session.js, and the ghost `generation` counter. -/
structure ContentState where
  isEnabled : Bool
  apiKeySet : Bool
  settings : Settings
  channelChanged : Bool
  preventExisting : Bool
  graceFlag : Bool
  graceDeadline : Option Nat
  translatedComments : List String
  generation : Nat
  deriving Repr, DecidableEq

/-- A `sendTranslationRequest` call as issued by `processChatMessage`. -/
structure TranslateRequest where
  id : String
  text : List Char
  sourceLang : String
  deriving Repr, DecidableEq

/-- The synchronous prefix of `processChatMessage` (src/content/content.js):
every early `return` before `sendTranslationRequest`, in source order —
disabled, existing-message suppression, grace period, missing API key,
non-element node, own translation element, missing message element,
already-translated id, empty text, ineligible text.  Returns the translate
request that is sent, if any. -/
def processDecision (s : ContentState) (m : MessageNode) :
    Option TranslateRequest :=
  if !s.isEnabled then none
  else if (!m.isNewMessage || m.isExistingMessage) &&
      (!s.settings.processExistingMessages || s.channelChanged ||
        s.preventExisting) then none
  else if s.graceFlag then none
  else if !s.apiKeySet then none
  else if !m.isElementNode then none
  else if m.isTranslationElement then none
  else if !m.hasMessageElement then none
  else if s.translatedComments.contains m.messageId then none
  else if m.text.length = 0 then none
  else if shouldTranslateBasedOnMode m.text s.settings then
    some { id := m.messageId, text := m.text,
           sourceLang :=
             if s.settings.translationMode = "all" then "auto" else "EN" }
  else none

/-- The continuation of `processChatMessage` after the awaited translation
settles: on success the id is recorded in `translatedComments`
(`translatedComments.set(messageId, true)`); on failure nothing relevant to
the pipeline state changes (the error branches only log or re-read
settings). -/
def completeTranslation (s : ContentState) (id : String) :
    Bool → ContentState
  | true =>
    { s with translatedComments :=
        if s.translatedComments.contains id then s.translatedComments
        else s.translatedComments ++ [id] }
  | false => s

/-- `GRACE_PERIOD_DURATION` (src/content/content.js). -/
def GRACE_PERIOD_DURATION : Nat := 5000

/-- `handleChannelChange` (src/content/content.js) for a navigation to a
channel page while observing: the observer is stopped and
`translatedComments` cleared, `setChannelChangedFlag(true)` sets the
channel-changed and prevent-existing flags, `setGracePeriodState(true)`
raises the grace flag, and the grace timer is re-armed to fire
`GRACE_PERIOD_DURATION` after `now`.  The ghost generation advances. -/
def handleChannelChange (s : ContentState) (now : Nat) : ContentState :=
  { s with
    translatedComments := []
    channelChanged := true
    preventExisting := true
    graceFlag := true
    graceDeadline := some (now + GRACE_PERIOD_DURATION)
    generation := s.generation + 1 }

/-- The grace-period timer callback (src/content/content.js): once the
timer deadline is reached, `setGracePeriodState(false)` lowers the grace
flag.  (The callback also re-marks the messages still in the document as
existing; a node already detached from the feed is not re-marked.) -/
def graceTimerFire (s : ContentState) (now : Nat) : ContentState :=
  match s.graceDeadline with
  | some d => if d ≤ now then
      { s with graceFlag := false, graceDeadline := none }
    else s
  | none => s

/-- `observeChatMessages` (src/content/content.js): on (re)attachment the
channel-changed flag is consumed (`removeSessionFlag`). -/
def startObserve (s : ContentState) : ContentState :=
  { s with channelChanged := false }

/-- `stopObserving` (src/content/content.js): clears `translatedComments`,
cancels the grace timer and lowers the grace flag. -/
def stopObserving (s : ContentState) : ContentState :=
  { s with translatedComments := [], graceFlag := false,
           graceDeadline := none }

/-- Events of the content-script pipeline: a delayed release of
`processChatMessage` on a node, the settlement of an in-flight translation,
a channel change, the grace-timer callback, observer re-attachment, and
observer shutdown. -/
inductive CsEvent where
  | observe (m : MessageNode)
  | complete (id : String) (success : Bool)
  | channelChange (now : Nat)
  | graceFire (now : Nat)
  | startObserve
  | stop
  deriving Repr, DecidableEq

/-- A pipeline run: the current state plus the log of issued translate
requests, each tagged with the ghost generation current when it was sent. -/
structure CsRun where
  state : ContentState
  sent : List (Nat × TranslateRequest)
  deriving Repr, DecidableEq

/-- One pipeline step. -/
def csStep (r : CsRun) : CsEvent → CsRun
  | .observe m =>
    match processDecision r.state m with
    | some req => { r with sent := r.sent ++ [(r.state.generation, req)] }
    | none => r
  | .complete id success =>
    { r with state := completeTranslation r.state id success }
  | .channelChange now => { r with state := handleChannelChange r.state now }
  | .graceFire now => { r with state := graceTimerFire r.state now }
  | .startObserve => { r with state := startObserve r.state }
  | .stop => { r with state := stopObserving r.state }

/-- Run a list of events. -/
def csRun (r : CsRun) (evs : List CsEvent) : CsRun :=
  evs.foldl csStep r

/-- A content-script state observing an active channel: translation enabled,
API key set, no transition in progress. -/
def activeState (s : Settings) : ContentState :=
  { isEnabled := true, apiKeySet := true, settings := s,
    channelChanged := false, preventExisting := false, graceFlag := false,
    graceDeadline := none, translatedComments := [], generation := 0 }

/-- The default settings of `getDefaultSettings` (src/unnamed/part_008),
restricted to the embedded fields. -/
def defaultSettings : Settings :=
  { translationMode := "selective", japaneseThreshold := 30,
    englishThreshold := 50, processExistingMessages := false }

/-- A live-tagged English chat message node, used as a concrete input. -/
def liveHello : MessageNode :=
  { isNewMessage := true, isExistingMessage := false, isElementNode := true,
    isTranslationElement := false, hasMessageElement := true,
    messageId := "m1", text := "hello world".toList }

/-- The translate request `processChatMessage` issues for `liveHello` in
selective mode. -/
def liveHelloRequest : TranslateRequest :=
  { id := "m1", text := "hello world".toList, sourceLang := "EN" }

/-- A pipeline run starting in the active state with default settings and
an empty request log. -/
def run0 : CsRun :=
  { state := activeState defaultSettings, sent := [] }

/-! ## Request queues (src/unnamed/part_009)

The module contains two queue implementations.  The first keeps an explicit
`pendingRequests` counter bounded by `MAX_CONCURRENT_REQUESTS`; the second
drains the queue in batches of at most `maxConcurrentRequests` items,
guarded by an `isProcessing` flag, and waits for the whole batch to settle
before splicing the next one. -/

/-- A queued translation request (text and source-language hint; the
promise handles are represented by the settlement bookkeeping of the
models below). -/
structure QItem where
  text : String
  sourceLang : String
  deriving Repr, DecidableEq

/-- `MAX_CONCURRENT_REQUESTS` of the counter-based queue. -/
def MAX_CONCURRENT_REQUESTS : Nat := 5

/-- State of the counter-based queue: the pending list and the
`pendingRequests` in-flight counter. -/
structure CounterQueue where
  queue : List QItem
  pending : Nat
  deriving Repr, DecidableEq

/-- `processQueue` of the counter-based queue: while the counter is below
the limit and the queue is non-empty, shift one item and increment the
counter (the shifted item's `translateText` call is now in flight).  A
single call dispatches at most one item. -/
def counterProcessQueue (s : CounterQueue) : CounterQueue :=
  if s.pending < MAX_CONCURRENT_REQUESTS ∧ s.queue ≠ [] then
    { queue := s.queue.tail, pending := s.pending + 1 }
  else s

/-- `enqueueTranslationRequest` of the counter-based queue: push the item
and kick `processQueue`. -/
def counterEnqueue (s : CounterQueue) (it : QItem) : CounterQueue :=
  counterProcessQueue { s with queue := s.queue ++ [it] }

/-- The `.finally` handler of the counter-based queue: a settlement
(fulfilment or rejection) decrements the counter and kicks `processQueue`
again. -/
def counterSettle (s : CounterQueue) : CounterQueue :=
  counterProcessQueue { s with pending := s.pending - 1 }

/-- Events of the counter-based queue. -/
inductive CqEvent where
  | enq (it : QItem)
  | settle
  deriving Repr, DecidableEq

/-- One step of the counter-based queue. -/
def cqStep (s : CounterQueue) : CqEvent → CounterQueue
  | .enq it => counterEnqueue s it
  | .settle => counterSettle s

/-- Run the counter-based queue from the initial state (empty queue, zero
in-flight counter). -/
def cqRun (evs : List CqEvent) : CounterQueue :=
  evs.foldl cqStep { queue := [], pending := 0 }

/-- Phase of one item of the current batch of the batch-based queue:
not yet dispatched (its stagger delay has not elapsed), dispatched with the
`translateText` promise unsettled, or settled. -/
inductive BPhase where
  | waiting
  | inFlight
  | settled
  deriving Repr, DecidableEq

/-- `BPhase.inFlight` as a Boolean test. -/
def BPhase.isInFlight : BPhase → Bool
  | .inFlight => true
  | _ => false

/-- `BPhase.settled` as a Boolean test. -/
def BPhase.isSettled : BPhase → Bool
  | .settled => true
  | _ => false

/-- One item of the current batch together with its phase. -/
structure BatchItem where
  item : QItem
  phase : BPhase
  deriving Repr, DecidableEq

/-- State of the batch-based queue: the pending list, the batch spliced by
the running `processQueue` call, the `isProcessing` flag and the configured
`maxConcurrentRequests`. -/
structure BatchQueue where
  queue : List QItem
  batch : List BatchItem
  isProcessing : Bool
  maxConcurrent : Nat
  deriving Repr, DecidableEq

/-- The batch-splicing prefix of `processQueue` of the batch-based queue:
when not already processing and the queue is non-empty, set `isProcessing`,
splice the first `min(maxConcurrentRequests, queue.length)` items out of
the queue and start them as the current batch. -/
def batchKick (s : BatchQueue) : BatchQueue :=
  if s.isProcessing then s
  else if s.queue = [] then s
  else
    { s with
      isProcessing := true
      batch := (s.queue.take s.maxConcurrent).map
        (fun it => { item := it, phase := .waiting })
      queue := s.queue.drop s.maxConcurrent }

/-- `enqueueTranslationRequest` of the batch-based queue: push the item and
call `processQueue` unless it is already running. -/
def batchEnqueue (s : BatchQueue) (it : QItem) : BatchQueue :=
  batchKick { s with queue := s.queue ++ [it] }

/-- The stagger timer of one batch item firing: its `translateText` call is
invoked, moving the item from `waiting` to `inFlight`. -/
def batchDispatch (s : BatchQueue) (i : Nat) : BatchQueue :=
  match s.batch.get? i with
  | some b =>
    if b.phase = .waiting then
      { s with batch := s.batch.set i { b with phase := .inFlight } }
    else s
  | none => s

/-- One batch item's `translateText` promise settling (fulfilment or
rejection — both arms of the `try`/`catch` settle the item). -/
def batchSettle (s : BatchQueue) (i : Nat) : BatchQueue :=
  match s.batch.get? i with
  | some b =>
    if b.phase = .inFlight then
      { s with batch := s.batch.set i { b with phase := .settled } }
    else s
  | none => s

/-- `Promise.all` of the batch resolving: once every batch item has
settled, `isProcessing` is cleared; the delayed follow-up `processQueue`
call is a separate later `kick` event. -/
def batchFinish (s : BatchQueue) : BatchQueue :=
  if s.isProcessing ∧ s.batch.all (fun b => b.phase.isSettled) then
    { s with isProcessing := false, batch := [] }
  else s

/-- Events of the batch-based queue. -/
inductive BqEvent where
  | enq (it : QItem)
  | kick
  | dispatch (i : Nat)
  | settle (i : Nat)
  | finish
  deriving Repr, DecidableEq

/-- One step of the batch-based queue. -/
def bqStep (s : BatchQueue) : BqEvent → BatchQueue
  | .enq it => batchEnqueue s it
  | .kick => batchKick s
  | .dispatch i => batchDispatch s i
  | .settle i => batchSettle s i
  | .finish => batchFinish s

/-- Run the batch-based queue from the initial state (empty queue, no
batch, not processing) with the given concurrency limit. -/
def bqRun (maxC : Nat) (evs : List BqEvent) : BatchQueue :=
  evs.foldl bqStep
    { queue := [], batch := [], isProcessing := false, maxConcurrent := maxC }

/-- Number of dispatched-but-unsettled `translateText` calls of the
batch-based queue. -/
def inFlightCount (s : BatchQueue) : Nat :=
  s.batch.countP (fun b => b.phase.isInFlight)

/-! ### Batch drain with per-item settlement (claim C9)

For the failure-isolation property the settlement values matter.  The
external `translateText` operation is a function from the item to either a
result or an error; each batch item is settled with its own outcome
(`request.resolve(result)` in the `try` arm, `request.reject(error)` in the
`catch` arm), and the queue then proceeds to the next batch regardless of
which arm was taken. -/

/-- The settlement of one queued item's promise handle. -/
inductive Settlement (ε α : Type) where
  | resolved (r : α)
  | rejected (e : ε)
  deriving Repr, DecidableEq

/-- How one batch item settles under the external translate operation `f`:
a translate error rejects the handle with that error, a translate result
fulfils it. -/
def settleWith {ε α : Type} (f : QItem → Except ε α) (it : QItem) :
    Settlement ε α :=
  match f it with
  | .ok r => .resolved r
  | .error e => .rejected e

/-- The batch drain loop of `processQueue`: splice a batch of at most
`maxC` items, settle each with its own outcome of `f`, and recurse on the
remainder.  `maxC` is positive because `initializeRequestQueue` replaces a
falsy configured value with the non-zero default. -/
def processBatches {ε α : Type} (f : QItem → Except ε α) (maxC : Nat)
    (items : List QItem) (hpos : 0 < maxC) :
    List (QItem × Settlement ε α) :=
  match items with
  | [] => []
  | x :: xs =>
    ((x :: xs).take maxC).map (fun it => (it, settleWith f it)) ++
      processBatches f maxC ((x :: xs).drop maxC) hpos
  termination_by items.length
  decreasing_by
    simp only [List.length_drop, List.length_cons]
    omega

/-! ## Association lists with JavaScript `Map` semantics

`Map.set` on an existing key updates the value in place, keeping the key's
insertion-order position; on a fresh key it appends.  `Map.delete` removes
the entry.  Plain objects (`translationCache[key] = …` in
src/background/modules/settings.js) behave the same way for string keys. -/

/-- `Map.get` / property read. -/
def alLookup {α : Type} (k : String) : List (String × α) → Option α
  | [] => none
  | (k', v) :: rest => if k' = k then some v else alLookup k rest

/-- `Map.set` / property write. -/
def alSet {α : Type} (k : String) (v : α) :
    List (String × α) → List (String × α)
  | [] => [(k, v)]
  | (k', v') :: rest =>
    if k' = k then (k', v) :: rest else (k', v') :: alSet k v rest

/-- `Map.delete` / `delete obj[key]`. -/
def alErase {α : Type} (k : String) :
    List (String × α) → List (String × α)
  | [] => []
  | (k', v') :: rest => if k' = k then rest else (k', v') :: alErase k rest

/-! ## The LRU cache (src/utils/cache.js, class `LRUCache`)

The backing `Map` is embedded as a list of entries in insertion order, the
front being the oldest (`this.cache.keys().next().value`).  Each entry
additionally carries a ghost `stamp`: the logical time of the operation
that last touched (inserted or fetched) it.  The source keeps no such
field — it is recency bookkeeping used only to state that the evicted
entry really is the least-recently-accessed one. -/

/-- One entry of the LRU cache, with its ghost last-access stamp. -/
structure LEntry (α : Type) where
  key : String
  value : α
  stamp : Nat
  deriving Repr, DecidableEq

/-- The LRU cache: configured maximum size and the backing `Map`. -/
structure LRUCache (α : Type) where
  maxSize : Nat
  entries : List (LEntry α)
  deriving Repr, DecidableEq

/-- Delete the entry with the given key (`this.cache.delete(key)`). -/
def lruEraseKey {α : Type} (k : String) :
    List (LEntry α) → List (LEntry α)
  | [] => []
  | e :: rest => if e.key = k then rest else e :: lruEraseKey k rest

/-- `LRUCache.get`: a miss returns null; a hit deletes the entry and
re-inserts it at the most-recently-used end, stamping it with the current
logical time `t`. -/
def lruGet {α : Type} (c : LRUCache α) (k : String) (t : Nat) :
    Option α × LRUCache α :=
  match c.entries.find? (fun e => e.key = k) with
  | none => (none, c)
  | some e =>
    (some e.value,
     { c with entries := lruEraseKey k c.entries ++ [{ e with stamp := t }] })

/-- `LRUCache.set`: an existing key is deleted first; otherwise, at
capacity, the oldest entry (the front of the `Map`) is evicted; the new
entry is then appended at the most-recently-used end. -/
def lruSet {α : Type} (c : LRUCache α) (k : String) (v : α) (t : Nat) :
    LRUCache α :=
  if c.entries.any (fun e => e.key = k) then
    { c with entries := lruEraseKey k c.entries ++ [⟨k, v, t⟩] }
  else if c.maxSize ≤ c.entries.length then
    { c with entries := c.entries.tail ++ [⟨k, v, t⟩] }
  else
    { c with entries := c.entries ++ [⟨k, v, t⟩] }

/-- `LRUCache.clear`. -/
def lruClear {α : Type} (c : LRUCache α) : LRUCache α :=
  { c with entries := [] }

/-- `LRUCache.fromObject`: clears the cache and then writes every pair of
the snapshot object straight into the backing `Map` (`this.cache.set`),
without going through `LRUCache.set`. -/
def lruFromObject {α : Type} (c : LRUCache α) (obj : List (String × α))
    (t : Nat) : LRUCache α :=
  { c with entries := obj.map (fun kv => ⟨kv.1, kv.2, t⟩) }

/-! ## Translation results and the background caches -/

/-- A translation result as produced by `translateText`
(src/background/modules/translator.js) and cached by the background
modules: the success flag, the translated text, the engine tag and an
error message. -/
structure TResult where
  success : Bool
  translatedText : String
  engine : Option String
  error : Option String
  deriving Repr, DecidableEq

/-! ### src/background/modules/cache.js -/

/-- One entry of the background translation cache: the stored result and
its timestamp, refreshed on every hit. -/
structure BgEntry where
  translation : TResult
  timestamp : Nat
  deriving Repr, DecidableEq

/-- `MAX_CACHE_SIZE` (src/background/modules/cache.js). -/
def MAX_CACHE_SIZE : Nat := 1000

/-- The settings fields read by the background cache module. -/
structure BgSettings where
  useCache : Bool
  maxCacheAge : Nat
  deriving Repr, DecidableEq

/-- The eviction scan of `cacheTranslation`
(src/background/modules/cache.js): fold over the `Map` in insertion order,
keeping the first key whose timestamp is strictly below the best so far,
starting from `Date.now()` with no key. -/
def bgOldestKey (now : Nat) (cache : List (String × BgEntry)) :
    Option String × Nat :=
  cache.foldl
    (fun acc kv =>
      if kv.2.timestamp < acc.2 then (some kv.1, kv.2.timestamp) else acc)
    (none, now)

/-- `cacheTranslation` (src/background/modules/cache.js): nothing is stored
when the cache is disabled or the result is not a success; at capacity the
entry found by the eviction scan (if any) is deleted; the new entry is then
written under `sourceLang:text` with the current timestamp.  Returns the
updated cache and the function's Boolean result. -/
def bgCacheTranslation (now : Nat) (st : BgSettings)
    (text sourceLang : String) (result : TResult)
    (cache : List (String × BgEntry)) : List (String × BgEntry) × Bool :=
  if !st.useCache || !result.success then (cache, false)
  else
    let key := sourceLang ++ ":" ++ text
    let cache' :=
      if MAX_CACHE_SIZE ≤ cache.length then
        match (bgOldestKey now cache).1 with
        | some oldest => alErase oldest cache
        | none => cache
      else cache
    (alSet key ⟨result, now⟩ cache', true)

/-- `getCachedTranslation` (src/background/modules/cache.js): a disabled
cache or a miss returns null; an entry older than
`maxCacheAge * 60 * 60 * 1000` milliseconds is deleted and null returned;
otherwise the entry's timestamp is refreshed to now, the result is tagged
`engine: "cached"` when it has no engine tag (the stored object is the same
object, so the tag is also stored), and the result is returned. -/
def bgGetCachedTranslation (now : Nat) (st : BgSettings)
    (text sourceLang : String) (cache : List (String × BgEntry)) :
    Option TResult × List (String × BgEntry) :=
  if !st.useCache then (none, cache)
  else
    let key := sourceLang ++ ":" ++ text
    match alLookup key cache with
    | none => (none, cache)
    | some e =>
      let maxAge := st.maxCacheAge * 60 * 60 * 1000
      if maxAge < now - e.timestamp then (none, alErase key cache)
      else
        let tr :=
          if e.translation.engine = none then
            { e.translation with engine := some "cached" }
          else e.translation
        (some tr, alSet key ⟨tr, now⟩ cache)

/-- `clearCache` (src/background/modules/cache.js). -/
def bgClearCache (cache : List (String × BgEntry)) :
    List (String × BgEntry) × Nat :=
  ([], cache.length)

/-! ### src/background/modules/settings.js cache functions -/

/-- One cache item of the settings-module cache: the stored result with
creation, last-access and absolute expiry times. -/
structure SCacheItem where
  data : TResult
  createdAt : Nat
  lastAccessed : Nat
  expiresAt : Nat
  deriving Repr, DecidableEq

/-- `DEFAULT_CACHE_EXPIRATION` (24 hours in milliseconds). -/
def DEFAULT_CACHE_EXPIRATION : Nat := 24 * 60 * 60 * 1000

/-- `DEFAULT_MAX_CACHE_SIZE`. -/
def DEFAULT_MAX_CACHE_SIZE : Nat := 1000

/-- The settings fields read by the settings-module cache functions; a zero
stands for a falsy configured value, replaced by the default through
`settings.x || DEFAULT_X`. -/
structure SSettings where
  useCache : Bool
  cacheExpiration : Nat
  maxCacheSize : Nat
  deriving Repr, DecidableEq

/-- `getCachedTranslation` (src/background/modules/settings.js): empty text
or a disabled cache returns null (the cache is modelled as already
initialised); a miss returns null; an item whose `expiresAt` lies strictly
in the past is deleted and null returned; otherwise `lastAccessed` is
refreshed in place and the stored data returned. -/
def sGetCachedTranslation (now : Nat) (useCache : Bool)
    (text sourceLang : String) (cache : List (String × SCacheItem)) :
    Option TResult × List (String × SCacheItem) :=
  if text = "" then (none, cache)
  else if !useCache then (none, cache)
  else
    let key := sourceLang ++ ":" ++ text
    match alLookup key cache with
    | none => (none, cache)
    | some item =>
      if item.expiresAt < now then (none, alErase key cache)
      else
        (some item.data,
         alSet key { item with lastAccessed := now } cache)

/-- Insertion into a lastAccessed-sorted list, used to embed the JavaScript
stable sort of `pruneCache` by ascending `lastAccessed`. -/
def insertByLA (kv : String × SCacheItem) :
    List (String × SCacheItem) → List (String × SCacheItem)
  | [] => [kv]
  | x :: xs =>
    if x.2.lastAccessed ≤ kv.2.lastAccessed then x :: insertByLA kv xs
    else kv :: x :: xs

/-- The `pruneCache` sort: cache items by ascending `lastAccessed`. -/
def sortByLA : List (String × SCacheItem) → List (String × SCacheItem)
  | [] => []
  | x :: xs => insertByLA x (sortByLA xs)

/-- `pruneCache` (src/background/modules/settings.js): when the cache
exceeds the configured maximum, remove
`⌈(size − maxSize) + maxSize · 0.2⌉` of the least-recently-accessed items
(the source computes this count in binary floating point; it is embedded
as the exact rational). -/
def sPruneCache (cfg : SSettings) (cache : List (String × SCacheItem)) :
    List (String × SCacheItem) :=
  let maxCacheSize :=
    if cfg.maxCacheSize = 0 then DEFAULT_MAX_CACHE_SIZE else cfg.maxCacheSize
  if cache.length ≤ maxCacheSize then cache
  else
    let itemsToRemove : Nat :=
      Nat.ceil (((cache.length - maxCacheSize : ℕ) : ℚ) +
        (maxCacheSize : ℚ) * (2 / 10))
    ((sortByLA cache).take itemsToRemove).foldl
      (fun c kv => alErase kv.1 c) cache

/-- `cacheTranslation` (src/background/modules/settings.js): nothing is
stored for empty text, a missing or unsuccessful result, or a disabled
cache; otherwise the item is written with `expiresAt = now + expiration`
(the configured expiration or its default) and the cache pruned. -/
def sCacheTranslation (now : Nat) (cfg : SSettings)
    (text sourceLang : String) (result : TResult)
    (cache : List (String × SCacheItem)) : List (String × SCacheItem) :=
  if text = "" || !result.success then cache
  else if !cfg.useCache then cache
  else
    let key := sourceLang ++ ":" ++ text
    let cacheExpiration :=
      if cfg.cacheExpiration = 0 then DEFAULT_CACHE_EXPIRATION
      else cfg.cacheExpiration
    sPruneCache cfg
      (alSet key
        { data := result, createdAt := now, lastAccessed := now,
          expiresAt := now + cacheExpiration } cache)

/-! ### Background cache operation sequences (claim C10)

The in-memory write operations that ever touch the
src/background/modules/cache.js translation cache. -/

/-- An operation on the background translation cache. -/
inductive BgOp where
  | put (now : Nat) (st : BgSettings) (text sourceLang : String)
      (result : TResult)
  | get (now : Nat) (st : BgSettings) (text sourceLang : String)
  | clear
  deriving Repr, DecidableEq

/-- Apply one background-cache operation. -/
def bgApply (cache : List (String × BgEntry)) : BgOp →
    List (String × BgEntry)
  | .put now st text sourceLang result =>
    (bgCacheTranslation now st text sourceLang result cache).1
  | .get now st text sourceLang =>
    (bgGetCachedTranslation now st text sourceLang cache).2
  | .clear => (bgClearCache cache).1

/-- Run a sequence of background-cache operations from the empty cache. -/
def bgRun (ops : List BgOp) : List (String × BgEntry) :=
  ops.foldl bgApply []

/-! ## Invariant predicates and concrete fixtures -/

/-- The entries of an LRU cache are ordered by non-decreasing ghost stamp:
the front of the backing `Map` is the least-recently-accessed entry, ties
between equal stamps resolved by insertion order. -/
def StampSorted {α : Type} (l : List (LEntry α)) : Prop :=
  l.Pairwise (fun a b => a.stamp ≤ b.stamp)

/-- Every entry of the background translation cache stores a successful
translation result. -/
def BgAllSuccess (cache : List (String × BgEntry)) : Prop :=
  ∀ kv ∈ cache, kv.2.translation.success = true

/-- A pipeline state inside the grace period. -/
def graceState : ContentState :=
  { activeState defaultSettings with graceFlag := true }

/-- A two-entry LRU cache at capacity, the front entry least recently
accessed. -/
def lruDemo : LRUCache Nat :=
  { maxSize := 2,
    entries := [{ key := "a", value := 1, stamp := 0 },
                { key := "b", value := 2, stamp := 1 }] }

/-- A successful translation result. -/
def okResult : TResult :=
  { success := true, translatedText := "こんにちは", engine := some "gemini",
    error := none }

/-- A failed translation result. -/
def failResult : TResult :=
  { success := false, translatedText := "", engine := none,
    error := some "API error" }

/-- A settings-module cache item inserted at t = 0 with a 1000 ms TTL. -/
def demoItem : SCacheItem :=
  { data := okResult, createdAt := 0, lastAccessed := 0, expiresAt := 1000 }

/-- A background cache entry stamped at t = 0. -/
def demoBgEntry : BgEntry :=
  { translation := okResult, timestamp := 0 }

/-- A concrete external translate operation under which exactly the queue
items whose text is `"boom"` fail. -/
def demoTranslate (it : QItem) : Except String TResult :=
  if it.text = "boom" then Except.error "network error"
  else Except.ok { success := true, translatedText := it.text,
                   engine := some "gemini", error := none }

/-! # Theorems -/

/-! ## Classifier lemmas -/

/-- The selective classifier accepts the default live message text. -/
theorem shouldTranslate_hello :
    shouldTranslateBasedOnMode "hello world".toList defaultSettings = true := by
  rw [shouldTranslateBasedOnMode, if_neg (by decide), if_neg (by decide)]
  have h1 : List.countP isJapaneseChar
      ['h', 'e', 'l', 'l', 'o', ' ', 'w', 'o', 'r', 'l', 'd'] = 0 := by decide
  have h2 : List.countP isEnglishChar
      ['h', 'e', 'l', 'l', 'o', ' ', 'w', 'o', 'r', 'l', 'd'] = 10 := by decide
  have h4 : List.countP isSymbolOrSpace
      ['h', 'e', 'l', 'l', 'o', ' ', 'w', 'o', 'r', 'l', 'd'] = 1 := by decide
  norm_num [shouldTranslate, getJapaneseRatio, getEnglishRatio,
    getContentCharsCount, h1, h2, h4, defaultSettings]

/-! ## Content-pipeline lemmas -/

/-- `processChatMessage` sends the expected request for the live English
message from any enabled, keyed, non-grace state with default settings that
has not yet translated it. -/
theorem processDecision_sends (s : ContentState) (hen : s.isEnabled = true)
    (hapi : s.apiKeySet = true) (hg : s.graceFlag = false)
    (hset : s.settings = defaultSettings)
    (hc : s.translatedComments.contains "m1" = false) :
    processDecision s liveHello = some liveHelloRequest := by
  unfold processDecision liveHello liveHelloRequest
  simp only [hen, hapi, hg, hset, hc]
  norm_num
  constructor
  · exact shouldTranslate_hello
  · intro h; exact absurd h (by decide)

/-- With the grace flag raised, `processChatMessage` returns before
`sendTranslationRequest` for every message. -/
theorem processDecision_none_of_grace (s : ContentState) (m : MessageNode)
    (h : s.graceFlag = true) : processDecision s m = none := by
  unfold processDecision
  simp only [h, eq_self_iff_true, if_true, ite_self]

/-- An id already recorded in `translatedComments` is never re-sent. -/
theorem processDecision_none_of_contains (s : ContentState)
    (m : MessageNode)
    (h : s.translatedComments.contains m.messageId = true) :
    processDecision s m = none := by
  unfold processDecision
  simp only [h, eq_self_iff_true, if_true, ite_self]

/-- With the prevent-existing flag raised, an existing-tagged message is
never sent. -/
theorem processDecision_none_of_prevent (s : ContentState)
    (m : MessageNode)
    (h1 : m.isNewMessage = false ∨ m.isExistingMessage = true)
    (h2 : s.preventExisting = true) : processDecision s m = none := by
  have hcond : ((!m.isNewMessage || m.isExistingMessage) &&
      (!s.settings.processExistingMessages || s.channelChanged ||
        s.preventExisting)) = true := by
    rcases h1 with h | h <;> simp [h, h2]
  unfold processDecision
  simp only [hcond, eq_self_iff_true, if_true, ite_self]

/-- A successful completion records the message id. -/
theorem completeTranslation_marks (s : ContentState) (id : String) :
    (completeTranslation s id true).translatedComments.contains id
      = true := by
  unfold completeTranslation
  by_cases h : s.translatedComments.contains id
  · simp only [if_pos h]; exact h
  · simp only [if_neg h]; simp

/-- No pipeline event ever decreases the ghost generation counter. -/
theorem csStep_generation_mono (e : CsEvent) (r : CsRun) :
    r.state.generation ≤ (csStep r e).state.generation := by
  cases e with
  | observe m =>
    simp only [csStep]
    cases processDecision r.state m <;> simp
  | complete id success =>
    cases success <;> simp [csStep, completeTranslation]
  | channelChange now => simp [csStep, handleChannelChange]
  | graceFire now =>
    cases hd : r.state.graceDeadline with
    | none => simp [csStep, graceTimerFire, hd]
    | some d =>
      simp only [csStep, graceTimerFire, hd]
      split_ifs <;> simp
  | startObserve => simp [csStep, startObserve]
  | stop => simp [csStep, stopObserving]

/-- The ghost generation counter is monotone along every run. -/
theorem csRun_generation_mono (r : CsRun) (evs : List CsEvent) :
    r.state.generation ≤ (csRun r evs).state.generation := by
  induction evs generalizing r with
  | nil => simp [csRun]
  | cons e rest ih =>
    calc r.state.generation ≤ (csStep r e).state.generation :=
          csStep_generation_mono e r
      _ ≤ (csRun (csStep r e) rest).state.generation := ih _

/-! ## Claim C2 -/

/-- Claim C2 (grace-period suppression): while the grace period is active
(the grace flag of the session store is raised, which holds exactly from a
channel transition until its 5000 ms timer fires), `processChatMessage`
submits no translate request, for every message node, historical or live;
consequently an `observe` release during the grace period leaves the
request log unchanged. -/
theorem grace_period_blocks_requests (s : ContentState) (m : MessageNode)
    (h : s.graceFlag = true) :
    processDecision s m = none ∧
    ∀ r : CsRun, r.state = s → (csStep r (.observe m)).sent = r.sent := by
  have hpd := processDecision_none_of_grace s m h
  refine ⟨hpd, fun r hr => ?_⟩
  simp only [csStep, hr, hpd]

/-- Witness for C2 at a concrete grace-period state and a live message. -/
theorem grace_period_blocks_requests_witness :
    processDecision graceState liveHello = none :=
  (grace_period_blocks_requests graceState liveHello rfl).1

/-! ## Claim C1 -/

/-- Claim C1, counterexample: the dedup mark is written only after a
successful translation, so a message whose first translate request fails and
which is then re-observed under the same session (generation 0 throughout)
is sent a second time — the trace below issues two requests for id "m1". -/
theorem duplicate_request_after_failure :
    ((csRun run0 [.observe liveHello, .complete "m1" false,
        .observe liveHello]).sent.map (fun p => p.2.id) = ["m1", "m1"]) ∧
    (csRun run0 [.observe liveHello, .complete "m1" false,
        .observe liveHello]).state.generation = 0 := by
  have h1 : processDecision (activeState defaultSettings) liveHello =
      some liveHelloRequest := processDecision_sends _ rfl rfl rfl rfl rfl
  simp only [csRun, List.foldl, csStep, run0, h1, completeTranslation]
  constructor <;> rfl

/-- Claim C1, amended: re-observing an id already recorded as processed in
`translatedComments` never causes another translate request, and a
successful completion records its id — so at most one request is sent per
id once its translation has succeeded.  (An id whose translation failed, or
whose first request is still in flight, can be re-requested: see the
counterexample.) -/
theorem dedup_after_success (s : ContentState) (m : MessageNode)
    (sc : ContentState) (id : String)
    (h : s.translatedComments.contains m.messageId = true) :
    processDecision s m = none ∧
    (completeTranslation sc id true).translatedComments.contains id
      = true :=
  ⟨processDecision_none_of_contains s m h,
   completeTranslation_marks sc id⟩

/-- Witness for C1 at a state that has already translated "m1". -/
theorem dedup_after_success_witness :
    processDecision
      { activeState defaultSettings with translatedComments := ["m1"] }
      liveHello = none ∧
    (completeTranslation (activeState defaultSettings)
      "m1" true).translatedComments.contains "m1" = true :=
  dedup_after_success _ liveHello (activeState defaultSettings) "m1"
    (by decide)

/-! ## Claim C4 -/

/-- Claim C4, counterexample: the source keeps no generation counter, so a
live-tagged release scheduled before a channel change that fires after the
grace timer has ended is submitted into the new session: after
`handleChannelChange` at t = 0 (ghost generation 1) and the grace timer
firing at t = 5000, observing the stale live node issues a request tagged
with the new generation instead of being dropped. -/
theorem stale_release_submitted_after_grace :
    (csRun run0 [.channelChange 0, .graceFire 5000, .observe liveHello]).sent
      = [(1, liveHelloRequest)] := by
  have h1 : processDecision
      { isEnabled := true, apiKeySet := true, settings := defaultSettings,
        channelChanged := true, preventExisting := true, graceFlag := false,
        graceDeadline := none, translatedComments := [], generation := 1 }
      liveHello = some liveHelloRequest :=
    processDecision_sends _ rfl rfl rfl rfl rfl
  simp only [csRun, List.foldl, csStep, run0, handleChannelChange,
    graceTimerFire, activeState]
  rw [if_pos (by decide : (0 : Nat) + GRACE_PERIOD_DURATION ≤ 5000)]
  simp only [h1]
  rfl

/-- Claim C4, amended: the transition generation (ghost count of
`handleChannelChange` executions) increases by one at every channel change
and never decreases along a run; a release that fires while the grace flag
is still raised is dropped, as is every existing-tagged release while the
prevent-existing flag is raised — but no generation comparison exists, so a
live-tagged release firing after the grace period ends is submitted even
when it was scheduled under an earlier generation (see the
counterexample). -/
theorem channel_transition_suppression :
    (∀ (r : CsRun) (now : Nat),
        (csStep r (.channelChange now)).state.generation =
          r.state.generation + 1) ∧
    (∀ (r : CsRun) (evs : List CsEvent),
        r.state.generation ≤ (csRun r evs).state.generation) ∧
    (∀ (r : CsRun) (m : MessageNode), r.state.graceFlag = true →
        (csStep r (.observe m)).sent = r.sent) ∧
    (∀ (r : CsRun) (m : MessageNode),
        (m.isNewMessage = false ∨ m.isExistingMessage = true) →
        r.state.preventExisting = true →
        (csStep r (.observe m)).sent = r.sent) := by
  refine ⟨?_, csRun_generation_mono, ?_, ?_⟩
  · intro r now; simp [csStep, handleChannelChange]
  · intro r m h
    simp only [csStep, processDecision_none_of_grace r.state m h]
  · intro r m h1 h2
    simp only [csStep, processDecision_none_of_prevent r.state m h1 h2]

/-- Witness for C4 at a concrete run and an existing-tagged node. -/
theorem channel_transition_suppression_witness :
    (csStep { state := graceState, sent := [] }
      (.observe liveHello)).sent = [] ∧
    (csStep { state := { activeState defaultSettings with
        preventExisting := true }, sent := [] }
      (.observe { liveHello with isNewMessage := false })).sent = [] :=
  ⟨channel_transition_suppression.2.2.1 _ liveHello rfl,
   channel_transition_suppression.2.2.2 _ _ (Or.inl rfl) rfl⟩

/-! ## Claim C6 -/

/-- Claim C6, counterexample: for empty text the code returns "not
eligible" before consulting any ratio, whereas the spec's ordered rule
(with the ratios of empty text being 0) declares the text eligible whenever
the foreign threshold is 0 — so the claim "for every text and thresholds,
eligibility is decided by exactly this ordered rule" fails at empty text
with thresholds native = 30, foreign = 0. -/
theorem selective_rule_differs_on_empty :
    shouldTranslate []
      { translationMode := "selective", japaneseThreshold := 30,
        englishThreshold := 0, processExistingMessages := false } = false ∧
    selectiveRule []
      { translationMode := "selective", japaneseThreshold := 30,
        englishThreshold := 0, processExistingMessages := false } = true := by
  constructor
  · rfl
  · unfold selectiveRule getJapaneseRatio getEnglishRatio
    norm_num

/-- Claim C6, amended: for every non-empty text and every thresholds, the
selective-mode decision of `shouldTranslate` coincides exactly with the
spec's ordered rule — native-ratio cutoff first, then foreign-ratio cutoff,
then the substantive-character floor, then the foreign-vs-native character
count comparison, else not eligible.  (Empty text is rejected by the
separate empty-text guard before the rule applies.) -/
theorem selective_order_matches_spec (text : List Char) (s : Settings)
    (h : text ≠ []) : shouldTranslate text s = selectiveRule text s := by
  have hl : text.length ≠ 0 := fun hc => h (List.length_eq_zero.mp hc)
  have hcast : (text.length : ℚ) ≠ 0 := Nat.cast_ne_zero.mpr hl
  have key : (getJapaneseRatio text * (text.length : ℚ) <
      getEnglishRatio text * (text.length : ℚ)) ↔
      (text.countP isJapaneseChar < text.countP isEnglishChar) := by
    unfold getJapaneseRatio getEnglishRatio
    rw [if_neg hl, if_neg hl, div_mul_cancel₀ _ hcast,
      div_mul_cancel₀ _ hcast, Nat.cast_lt]
  unfold shouldTranslate selectiveRule
  rw [if_neg hl]
  by_cases h1 : s.japaneseThreshold / 100 ≤ getJapaneseRatio text
  · rw [if_pos h1, if_pos h1]
  · rw [if_neg h1, if_neg h1]
    by_cases h2 : s.englishThreshold / 100 ≤ getEnglishRatio text
    · rw [if_pos h2, if_pos h2]
    · rw [if_neg h2, if_neg h2]
      by_cases h3 : getContentCharsCount text < 3
      · rw [if_pos h3, if_pos h3]
      · rw [if_neg h3, if_neg h3]
        simp only [key]

/-- Witness for C6 at the non-empty text "hello world". -/
theorem selective_order_matches_spec_witness :
    shouldTranslate "hello world".toList defaultSettings =
      selectiveRule "hello world".toList defaultSettings :=
  selective_order_matches_spec "hello world".toList defaultSettings
    (by decide)

/-! ## Claim C7 -/

/-- Claim C7, counterexample: in mode "all" the eligibility switch returns
true before any emptiness check, so empty text is declared eligible — the
claim "empty text is not eligible in every mode" fails for mode "all".
(Callers never reach the check with empty text, because
`processChatMessage` drops messages with no extracted text first.) -/
theorem mode_all_accepts_empty_text :
    shouldTranslateBasedOnMode []
      { translationMode := "all", japaneseThreshold := 30,
        englishThreshold := 50, processExistingMessages := false }
      = true := rfl

/-- Claim C7, amended: for every settings object whose mode is not "all" —
the "english" mode and the selective default — empty text is not eligible;
in mode "all" the check returns true for every text, empty included. -/
theorem empty_text_not_eligible_outside_all (s : Settings) :
    (¬ s.translationMode = "all" →
      shouldTranslateBasedOnMode [] s = false) ∧
    (s.translationMode = "all" →
      ∀ text : List Char, shouldTranslateBasedOnMode text s = true) := by
  constructor
  · intro h
    unfold shouldTranslateBasedOnMode
    rw [if_neg h]
    by_cases h2 : s.translationMode = "english"
    · rw [if_pos h2]
      unfold isEnglishText getEnglishRatio
      norm_num
    · rw [if_neg h2]; rfl
  · intro h text
    unfold shouldTranslateBasedOnMode
    rw [if_pos h]

/-- Witness for C7 at the default (selective) settings. -/
theorem empty_text_not_eligible_outside_all_witness :
    shouldTranslateBasedOnMode [] defaultSettings = false :=
  (empty_text_not_eligible_outside_all defaultSettings).1 (by decide)

/-! ## Queue lemmas -/

/-- A `processQueue` call of the counter-based queue keeps the in-flight
counter within the limit. -/
theorem counterProcessQueue_pending (s : CounterQueue)
    (h : s.pending ≤ MAX_CONCURRENT_REQUESTS) :
    (counterProcessQueue s).pending ≤ MAX_CONCURRENT_REQUESTS := by
  unfold counterProcessQueue
  split_ifs with hc
  · exact hc.1
  · exact h

/-- Every counter-queue event preserves the in-flight bound. -/
theorem cqStep_pending (s : CounterQueue) (e : CqEvent)
    (h : s.pending ≤ MAX_CONCURRENT_REQUESTS) :
    (cqStep s e).pending ≤ MAX_CONCURRENT_REQUESTS := by
  cases e with
  | enq it => exact counterProcessQueue_pending _ h
  | settle =>
    exact counterProcessQueue_pending _ (Nat.le_trans (Nat.sub_le _ _) h)

/-- The counter-based queue never exceeds `MAX_CONCURRENT_REQUESTS`
in-flight calls, over every event sequence from the initial state. -/
theorem cqRun_pending (evs : List CqEvent) :
    (cqRun evs).pending ≤ MAX_CONCURRENT_REQUESTS := by
  have main : ∀ (s : CounterQueue), s.pending ≤ MAX_CONCURRENT_REQUESTS →
      (evs.foldl cqStep s).pending ≤ MAX_CONCURRENT_REQUESTS := by
    induction evs with
    | nil => intro s h; exact h
    | cons e rest ih => intro s h; exact ih _ (cqStep_pending s e h)
  exact main _ (by decide)

/-- Batch-queue events never change the configured concurrency limit. -/
theorem bqStep_maxConcurrent (s : BatchQueue) (e : BqEvent) :
    (bqStep s e).maxConcurrent = s.maxConcurrent := by
  cases e with
  | enq it =>
    simp only [bqStep, batchEnqueue, batchKick]; split_ifs <;> rfl
  | kick => simp only [bqStep, batchKick]; split_ifs <;> rfl
  | dispatch i =>
    simp only [bqStep, batchDispatch]
    cases s.batch.get? i with
    | none => rfl
    | some b => dsimp only; split_ifs <;> rfl
  | settle i =>
    simp only [bqStep, batchSettle]
    cases s.batch.get? i with
    | none => rfl
    | some b => dsimp only; split_ifs <;> rfl
  | finish => simp only [bqStep, batchFinish]; split_ifs <;> rfl

/-- A `processQueue` splice never creates a batch larger than the
concurrency limit. -/
theorem batchKick_batch_le (s : BatchQueue)
    (h : s.batch.length ≤ s.maxConcurrent) :
    (batchKick s).batch.length ≤ (batchKick s).maxConcurrent := by
  unfold batchKick
  split_ifs with h1 h2
  · exact h
  · exact h
  · simp only [List.length_map, List.length_take]
    exact Nat.min_le_left _ _

/-- Every batch-queue event preserves the batch-size bound. -/
theorem bqStep_batch_le (s : BatchQueue) (e : BqEvent)
    (h : s.batch.length ≤ s.maxConcurrent) :
    (bqStep s e).batch.length ≤ (bqStep s e).maxConcurrent := by
  cases e with
  | enq it => exact batchKick_batch_le _ h
  | kick => exact batchKick_batch_le _ h
  | dispatch i =>
    simp only [bqStep, batchDispatch]
    cases s.batch.get? i with
    | none => exact h
    | some b =>
      dsimp only
      split_ifs
      · simpa using h
      · exact h
  | settle i =>
    simp only [bqStep, batchSettle]
    cases s.batch.get? i with
    | none => exact h
    | some b =>
      dsimp only
      split_ifs
      · simpa using h
      · exact h
  | finish =>
    simp only [bqStep, batchFinish]
    split_ifs
    · simp
    · exact h

/-- The batch-based queue keeps at most `maxC` dispatched-but-unsettled
translate calls, over every event sequence from the initial state. -/
theorem bqRun_inFlight (maxC : Nat) (evs : List BqEvent) :
    inFlightCount (bqRun maxC evs) ≤ maxC := by
  have main : ∀ (s : BatchQueue), s.batch.length ≤ s.maxConcurrent →
      (evs.foldl bqStep s).batch.length ≤
        (evs.foldl bqStep s).maxConcurrent ∧
      (evs.foldl bqStep s).maxConcurrent = s.maxConcurrent := by
    induction evs with
    | nil => intro s h; exact ⟨h, rfl⟩
    | cons e rest ih =>
      intro s h
      obtain ⟨ha, hb⟩ := ih (bqStep s e) (bqStep_batch_le s e h)
      exact ⟨ha, hb.trans (bqStep_maxConcurrent s e)⟩
  obtain ⟨ha, hb⟩ := main
    { queue := [], batch := [], isProcessing := false, maxConcurrent := maxC }
    (by simp)
  calc inFlightCount (bqRun maxC evs)
      ≤ (bqRun maxC evs).batch.length := List.countP_le_length _
    _ ≤ maxC := by rw [bqRun]; exact le_of_le_of_eq ha hb

/-! ## Claim C3 -/

/-- Claim C3 (bounded concurrency): in both request-queue implementations,
for every sequence of enqueue, dispatch and settlement events from the
initial state, the number of dispatched-but-unsettled calls to the external
translate operation never exceeds the configured concurrency limit — the
`pendingRequests` counter stays at or below `MAX_CONCURRENT_REQUESTS`, and
the batch queue keeps at most `maxConcurrentRequests` calls in flight (so
with a limit of 3 and ten pending items whose calls never resolve, at most
3 are ever in flight). -/
theorem request_queue_bounded_concurrency :
    (∀ evs : List CqEvent,
      (cqRun evs).pending ≤ MAX_CONCURRENT_REQUESTS) ∧
    (∀ (maxC : Nat) (evs : List BqEvent),
      inFlightCount (bqRun maxC evs) ≤ maxC) :=
  ⟨cqRun_pending, bqRun_inFlight⟩

/-! ## Queue drain lemma (claim C9) -/

/-- The batch drain loop settles exactly the enqueued items, in order, each
with its own outcome of the external translate operation. -/
theorem processBatches_eq_map {ε α : Type} (f : QItem → Except ε α)
    (maxC : Nat) (hpos : 0 < maxC) :
    ∀ (n : Nat) (items : List QItem), items.length ≤ n →
      processBatches f maxC items hpos =
        items.map (fun it => (it, settleWith f it)) := by
  intro n
  induction n with
  | zero =>
    intro items hle
    have : items = [] := List.eq_nil_of_length_eq_zero (Nat.le_zero.mp hle)
    subst this
    rw [processBatches]
    rfl
  | succ n ih =>
    intro items hle
    match items with
    | [] => rw [processBatches]; rfl
    | x :: xs =>
      rw [processBatches]
      rw [ih ((x :: xs).drop maxC)
        (by simp only [List.length_drop, List.length_cons]
            simp only [List.length_cons] at hle
            omega)]
      rw [← List.map_append, List.take_append_drop]

/-! ## Claim C9 -/

/-- Claim C9 (queue failure isolation): for every external translate
operation, concurrency limit and queue contents, draining the queue in
batches settles every enqueued item — an item whose translate call fails is
rejected with its error, and every other item is still dispatched and
settled with its own result; one failure never stops the queue from
draining. -/
theorem queue_failure_isolation {ε α : Type} (f : QItem → Except ε α)
    (maxC : Nat) (items : List QItem) (hpos : 0 < maxC) :
    processBatches f maxC items hpos =
      items.map (fun it => (it, settleWith f it)) :=
  processBatches_eq_map f maxC hpos items.length items le_rfl

/-- Witness for C9: a four-item queue whose second item fails still settles
all four items, the failing one rejected with its error. -/
theorem queue_failure_isolation_witness :
    processBatches demoTranslate 3
      [⟨"good one", "EN"⟩, ⟨"boom", "EN"⟩, ⟨"good two", "EN"⟩,
        ⟨"good three", "EN"⟩] (by decide) =
      [(⟨"good one", "EN"⟩, .resolved ⟨true, "good one", some "gemini", none⟩),
       (⟨"boom", "EN"⟩, .rejected "network error"),
       (⟨"good two", "EN"⟩, .resolved ⟨true, "good two", some "gemini", none⟩),
       (⟨"good three", "EN"⟩,
         .resolved ⟨true, "good three", some "gemini", none⟩)] := by
  rw [queue_failure_isolation demoTranslate 3 _ (by decide)]
  decide

/-! ## Association-list lemmas -/

/-- Membership after a `Map.set`: the written pair or an old entry. -/
theorem mem_alSet {α : Type} (k : String) (v : α) (kv : String × α)
    (l : List (String × α)) (h : kv ∈ alSet k v l) :
    kv = (k, v) ∨ kv ∈ l := by
  induction l with
  | nil => simp [alSet] at h; left; exact h
  | cons x xs ih =>
    unfold alSet at h
    split_ifs at h with hk
    · rw [List.mem_cons] at h
      rcases h with h | h
      · left; rw [h, hk]
      · right; exact List.mem_cons_of_mem _ h
    · rw [List.mem_cons] at h
      rcases h with h | h
      · right; rw [h]; exact List.mem_cons_self _ _
      · rcases ih h with h' | h'
        · left; exact h'
        · right; exact List.mem_cons_of_mem _ h'

/-- Membership after a `Map.delete` implies prior membership. -/
theorem mem_alErase {α : Type} (k : String) (kv : String × α)
    (l : List (String × α)) (h : kv ∈ alErase k l) : kv ∈ l := by
  induction l with
  | nil => simp [alErase] at h
  | cons x xs ih =>
    unfold alErase at h
    split_ifs at h with hk
    · exact List.mem_cons_of_mem _ h
    · rw [List.mem_cons] at h
      rcases h with h | h
      · rw [h]; exact List.mem_cons_self _ _
      · exact List.mem_cons_of_mem _ (ih h)

/-- A successful lookup is a member. -/
theorem alLookup_mem {α : Type} (k : String) (v : α)
    (l : List (String × α)) (h : alLookup k l = some v) : (k, v) ∈ l := by
  induction l with
  | nil => simp [alLookup] at h
  | cons x xs ih =>
    unfold alLookup at h
    split_ifs at h with hk
    · rw [List.mem_cons]
      left
      injection h with h'
      rw [← hk, ← h']
    · exact List.mem_cons_of_mem _ (ih h)

/-- A member key looks up to something. -/
theorem alLookup_isSome_of_mem {α : Type} (k : String) (v : α)
    (l : List (String × α)) (h : (k, v) ∈ l) :
    ∃ w, alLookup k l = some w := by
  induction l with
  | nil => simp at h
  | cons x xs ih =>
    unfold alLookup
    split_ifs with hk
    · exact ⟨x.2, rfl⟩
    · rw [List.mem_cons] at h
      rcases h with h | h
      · exact absurd (by rw [← h]) hk
      · exact ih h

/-- Looking up the key just written returns the written value. -/
theorem alLookup_alSet_self {α : Type} (k : String) (v : α)
    (l : List (String × α)) : alLookup k (alSet k v l) = some v := by
  induction l with
  | nil => simp [alSet, alLookup]
  | cons x xs ih =>
    unfold alSet
    split_ifs with hk
    · unfold alLookup; rw [if_pos hk]
    · unfold alLookup; rw [if_neg hk]; exact ih

/-- A `Map.set` grows the map by at most one entry. -/
theorem alSet_length_le {α : Type} (k : String) (v : α)
    (l : List (String × α)) : (alSet k v l).length ≤ l.length + 1 := by
  induction l with
  | nil => simp [alSet]
  | cons x xs ih =>
    unfold alSet
    split_ifs
    · simp
    · simpa using Nat.succ_le_succ ih

/-- A `Map.set` on a present key keeps the size. -/
theorem alSet_length_of_lookup {α : Type} (k : String) (v w : α)
    (l : List (String × α)) (h : alLookup k l = some w) :
    (alSet k v l).length = l.length := by
  induction l with
  | nil => simp [alLookup] at h
  | cons x xs ih =>
    unfold alLookup at h
    unfold alSet
    split_ifs at h ⊢ with hk
    · simp
    · simpa using ih h

/-- A `Map.delete` of a present key removes exactly one entry. -/
theorem alErase_length_of_lookup {α : Type} (k : String) (w : α)
    (l : List (String × α)) (h : alLookup k l = some w) :
    (alErase k l).length + 1 = l.length := by
  induction l with
  | nil => simp [alLookup] at h
  | cons x xs ih =>
    unfold alLookup at h
    unfold alErase
    split_ifs at h ⊢ with hk
    · simp
    · simpa using ih h

/-- With unique keys, a deleted key no longer looks up. -/
theorem alLookup_alErase_self {α : Type} (k : String)
    (l : List (String × α)) (hnd : (l.map Prod.fst).Nodup) :
    alLookup k (alErase k l) = none := by
  induction l with
  | nil => simp [alErase, alLookup]
  | cons x xs ih =>
    simp only [List.map_cons, List.nodup_cons] at hnd
    unfold alErase
    split_ifs with hk
    · subst hk
      cases hl : alLookup x.1 xs with
      | none => rfl
      | some v =>
        exact absurd (List.mem_map_of_mem Prod.fst (alLookup_mem _ _ _ hl))
          (by simpa using hnd.1)
    · unfold alLookup
      rw [if_neg hk]
      exact ih hnd.2

/-! ## LRU-cache lemmas -/

/-- Deleting a key from the backing `Map` yields a sublist. -/
theorem lruEraseKey_sublist {α : Type} (k : String)
    (l : List (LEntry α)) : (lruEraseKey k l).Sublist l := by
  induction l with
  | nil => simp [lruEraseKey]
  | cons e rest ih =>
    unfold lruEraseKey
    split_ifs
    · exact List.sublist_cons_self _ _
    · exact List.Sublist.cons₂ _ ih

/-- Deleting a present key removes exactly one entry. -/
theorem lruEraseKey_length_of_any {α : Type} (k : String)
    (l : List (LEntry α)) (h : l.any (fun e => e.key = k) = true) :
    (lruEraseKey k l).length + 1 = l.length := by
  induction l with
  | nil => simp at h
  | cons e rest ih =>
    unfold lruEraseKey
    split_ifs with hk
    · rfl
    · simp only [List.any_cons, Bool.or_eq_true] at h
      rcases h with h | h
      · exact absurd (by simpa using h) hk
      · simpa using ih h

/-- A found key is present. -/
theorem lruFind_any {α : Type} (k : String) (l : List (LEntry α))
    (e : LEntry α) (h : l.find? (fun e => e.key = k) = some e) :
    l.any (fun e => e.key = k) = true := by
  have hm := List.mem_of_find?_eq_some h
  have hp := List.find?_some h
  exact List.any_eq_true.mpr ⟨e, hm, hp⟩

/-- `LRUCache.get` never changes the number of stored entries. -/
theorem lruGet_length {α : Type} (c : LRUCache α) (k : String) (t : Nat) :
    ((lruGet c k t).2).entries.length = c.entries.length := by
  unfold lruGet
  cases hf : c.entries.find? (fun e => e.key = k) with
  | none => rfl
  | some e =>
    dsimp only
    rw [List.length_append]
    have := lruEraseKey_length_of_any k c.entries (lruFind_any k _ e hf)
    simpa using this

/-- `LRUCache.set` keeps the entry count within a positive `maxSize`. -/
theorem lruSet_length {α : Type} (c : LRUCache α) (k : String) (v : α)
    (t : Nat) (hmax : 1 ≤ c.maxSize) (h : c.entries.length ≤ c.maxSize) :
    (lruSet c k v t).entries.length ≤ c.maxSize := by
  unfold lruSet
  split_ifs with h1 h2
  · dsimp only
    rw [List.length_append]
    have := lruEraseKey_length_of_any k c.entries h1
    simp only [List.length_cons, List.length_nil]
    omega
  · dsimp only
    rw [List.length_append, List.length_tail]
    simp only [List.length_cons, List.length_nil]
    omega
  · dsimp only
    rw [List.length_append]
    simp only [List.length_cons, List.length_nil]
    omega

/-- When `LRUCache.set` evicts, it removes the front entry of the backing
`Map`, whose ghost stamp is minimal: the least-recently-accessed entry,
with stamp ties resolved in favour of the earlier-inserted entry. -/
theorem lruSet_evicts_head {α : Type} (c : LRUCache α) (k : String)
    (v : α) (t : Nat) (e₀ : LEntry α) (rest : List (LEntry α))
    (hc : c.entries = e₀ :: rest)
    (hsorted : StampSorted c.entries)
    (hnew : c.entries.any (fun e => e.key = k) = false)
    (hcap : c.maxSize ≤ c.entries.length) :
    (lruSet c k v t).entries = rest ++ [⟨k, v, t⟩] ∧
      ∀ e ∈ c.entries, e₀.stamp ≤ e.stamp := by
  constructor
  · unfold lruSet
    rw [if_neg (by rw [hnew]; exact Bool.false_ne_true), if_pos hcap, hc]
    rfl
  · intro e he
    rw [hc] at he hsorted
    rw [List.mem_cons] at he
    rcases he with he | he
    · rw [he]
    · exact (List.pairwise_cons.mp hsorted).1 e he

/-- Appending a maximally-stamped entry preserves stamp order. -/
theorem lru_sorted_append {α : Type} (l : List (LEntry α)) (e : LEntry α)
    (hs : StampSorted l) (ht : ∀ x ∈ l, x.stamp ≤ e.stamp) :
    StampSorted (l ++ [e]) := by
  rw [StampSorted, List.pairwise_append]
  exact ⟨hs, List.pairwise_singleton _ _,
    fun a ha b hb => by
      rw [List.mem_singleton] at hb
      rw [hb]; exact ht a ha⟩

/-- `LRUCache.get` preserves stamp order when called at a time at or after
every stored stamp. -/
theorem lruGet_sorted {α : Type} (c : LRUCache α) (k : String) (t : Nat)
    (hs : StampSorted c.entries) (ht : ∀ e ∈ c.entries, e.stamp ≤ t) :
    StampSorted ((lruGet c k t).2).entries := by
  unfold lruGet
  cases hf : c.entries.find? (fun e => e.key = k) with
  | none => exact hs
  | some e =>
    dsimp only
    refine lru_sorted_append _ _ ?_ ?_
    · exact hs.sublist (lruEraseKey_sublist k c.entries)
    · intro x hx
      exact ht x ((lruEraseKey_sublist k c.entries).subset hx)

/-- `LRUCache.set` preserves stamp order when called at a time at or after
every stored stamp. -/
theorem lruSet_sorted {α : Type} (c : LRUCache α) (k : String) (v : α)
    (t : Nat) (hs : StampSorted c.entries)
    (ht : ∀ e ∈ c.entries, e.stamp ≤ t) :
    StampSorted (lruSet c k v t).entries := by
  unfold lruSet
  split_ifs with h1 h2
  · refine lru_sorted_append _ _ ?_ ?_
    · exact hs.sublist (lruEraseKey_sublist k c.entries)
    · intro x hx
      exact ht x ((lruEraseKey_sublist k c.entries).subset hx)
  · refine lru_sorted_append _ _ ?_ ?_
    · exact hs.sublist (List.tail_sublist c.entries)
    · intro x hx
      exact ht x ((List.tail_sublist c.entries).subset hx)
  · exact lru_sorted_append _ _ hs ht

/-- Rehydration stamps every entry alike, which is trivially ordered. -/
theorem lruFromObject_sorted {α : Type} (c : LRUCache α)
    (obj : List (String × α)) (t : Nat) :
    StampSorted (lruFromObject c obj t).entries := by
  unfold lruFromObject StampSorted
  dsimp only
  induction obj with
  | nil => exact List.Pairwise.nil
  | cons x xs ih =>
    rw [List.map_cons, List.pairwise_cons]
    refine ⟨?_, ih⟩
    intro e he
    rw [List.mem_map] at he
    obtain ⟨kv, _, hkv⟩ := he
    rw [← hkv]

/-! ## Background-cache lemmas -/

/-- The eviction scan's running minimum never increases and ends at or
below every scanned timestamp. -/
theorem bgFold_le (rest : List (String × BgEntry)) :
    ∀ acc : Option String × Nat,
      (rest.foldl (fun acc kv =>
        if kv.2.timestamp < acc.2 then (some kv.1, kv.2.timestamp) else acc)
        acc).2 ≤ acc.2 ∧
      ∀ kv ∈ rest,
        (rest.foldl (fun acc kv =>
          if kv.2.timestamp < acc.2 then (some kv.1, kv.2.timestamp) else acc)
          acc).2 ≤ kv.2.timestamp := by
  induction rest with
  | nil => intro acc; exact ⟨le_rfl, by simp⟩
  | cons x xs ih =>
    intro acc
    rw [List.foldl_cons]
    obtain ⟨h1, h2⟩ := ih
      (if x.2.timestamp < acc.2 then (some x.1, x.2.timestamp) else acc)
    constructor
    · refine h1.trans ?_
      split_ifs with hx
      · exact le_of_lt hx
      · exact le_rfl
    · intro kv hkv
      rw [List.mem_cons] at hkv
      rcases hkv with hkv | hkv
      · subst hkv
        refine h1.trans ?_
        split_ifs with hx
        · exact le_rfl
        · omega
      · exact h2 kv hkv

/-- The eviction scan either keeps its accumulator or returns the key and
timestamp of some scanned entry. -/
theorem bgFold_mem (rest : List (String × BgEntry)) :
    ∀ acc : Option String × Nat,
      (rest.foldl (fun acc kv =>
        if kv.2.timestamp < acc.2 then (some kv.1, kv.2.timestamp) else acc)
        acc) = acc ∨
      ∃ kv ∈ rest,
        (rest.foldl (fun acc kv =>
          if kv.2.timestamp < acc.2 then (some kv.1, kv.2.timestamp) else acc)
          acc) = (some kv.1, kv.2.timestamp) := by
  induction rest with
  | nil => intro acc; left; rfl
  | cons x xs ih =>
    intro acc
    rw [List.foldl_cons]
    split_ifs with hx
    · rcases ih (some x.1, x.2.timestamp) with h | ⟨kv, hm, he⟩
      · right; exact ⟨x, List.mem_cons_self _ _, h⟩
      · right; exact ⟨kv, List.mem_cons_of_mem _ hm, he⟩
    · rcases ih acc with h | ⟨kv, hm, he⟩
      · left; exact h
      · right; exact ⟨kv, List.mem_cons_of_mem _ hm, he⟩

/-- If some scanned entry lies strictly below the accumulator bound, the
scan selects a key. -/
theorem bgFold_isSome (rest : List (String × BgEntry)) :
    ∀ acc : Option String × Nat,
      (acc.1.isSome = true ∨ ∃ kv ∈ rest, kv.2.timestamp < acc.2) →
      ((rest.foldl (fun acc kv =>
        if kv.2.timestamp < acc.2 then (some kv.1, kv.2.timestamp) else acc)
        acc).1).isSome = true := by
  induction rest with
  | nil =>
    intro acc h
    rcases h with h | ⟨kv, hm, _⟩
    · exact h
    · simp at hm
  | cons x xs ih =>
    intro acc h
    rw [List.foldl_cons]
    split_ifs with hx
    · exact ih _ (Or.inl rfl)
    · refine ih _ ?_
      rcases h with h | ⟨kv, hm, hlt⟩
      · exact Or.inl h
      · rw [List.mem_cons] at hm
        rcases hm with hm | hm
        · subst hm; exact absurd hlt hx
        · exact Or.inr ⟨kv, hm, hlt⟩

/-- An entry strictly older than now makes the scan select a key. -/
theorem bgOldestKey_isSome (now : Nat) (cache : List (String × BgEntry))
    (h : ∃ kv ∈ cache, kv.2.timestamp < now) :
    ((bgOldestKey now cache).1).isSome = true :=
  bgFold_isSome cache (none, now) (Or.inr h)

/-- The key selected by the eviction scan belongs to an entry whose
timestamp is minimal in the cache: the least-recently-used entry. -/
theorem bgOldestKey_spec (now : Nat) (cache : List (String × BgEntry))
    (k₀ : String) (h : (bgOldestKey now cache).1 = some k₀) :
    ∃ e₀ : BgEntry, (k₀, e₀) ∈ cache ∧
      ∀ kv ∈ cache, e₀.timestamp ≤ kv.2.timestamp := by
  unfold bgOldestKey at h
  rcases bgFold_mem cache (none, now) with hm | ⟨kv, hmem, he⟩
  · rw [hm] at h; simp at h
  · rw [he] at h
    injection h with h
    refine ⟨kv.2, ?_, ?_⟩
    · rw [← h]; exact hmem
    · intro kv' hkv'
      have := (bgFold_le cache (none, now)).2 kv' hkv'
      rw [he] at this
      exact this

/-- `cacheTranslation` keeps the background cache within
`MAX_CACHE_SIZE`, provided that, when full, some entry is strictly older
than now (with every entry stamped at now, the strict-less scan selects
nothing, so the source would exceed the bound). -/
theorem bgCacheTranslation_length (now : Nat) (st : BgSettings)
    (text sourceLang : String) (result : TResult)
    (cache : List (String × BgEntry))
    (h : cache.length ≤ MAX_CACHE_SIZE)
    (hold : MAX_CACHE_SIZE ≤ cache.length →
      ∃ kv ∈ cache, kv.2.timestamp < now) :
    ((bgCacheTranslation now st text sourceLang result cache).1).length ≤
      MAX_CACHE_SIZE := by
  unfold bgCacheTranslation
  split_ifs with hg hcap
  · exact h
  · have hsome := bgOldestKey_isSome now cache (hold hcap)
    cases hk : (bgOldestKey now cache).1 with
    | none => rw [hk] at hsome; simp at hsome
    | some k₀ =>
      dsimp only
      obtain ⟨e₀, hmem, _⟩ := bgOldestKey_spec now cache k₀ hk
      obtain ⟨w, hw⟩ := alLookup_isSome_of_mem k₀ e₀ cache hmem
      have herase := alErase_length_of_lookup k₀ w cache hw
      have hset := alSet_length_le (sourceLang ++ ":" ++ text)
        (⟨result, now⟩ : BgEntry) (alErase k₀ cache)
      omega
  · dsimp only
    have hset := alSet_length_le (sourceLang ++ ":" ++ text)
      (⟨result, now⟩ : BgEntry) cache
    omega

/-- `getCachedTranslation` (background module) never grows the cache. -/
theorem bgGetCachedTranslation_length (now : Nat) (st : BgSettings)
    (text sourceLang : String) (cache : List (String × BgEntry)) :
    ((bgGetCachedTranslation now st text sourceLang cache).2).length ≤
      cache.length := by
  unfold bgGetCachedTranslation
  split_ifs with hu
  · exact le_rfl
  · dsimp only
    cases hlk : alLookup (sourceLang ++ ":" ++ text) cache with
    | none => exact le_rfl
    | some e =>
      dsimp only
      by_cases hexp : st.maxCacheAge * 60 * 60 * 1000 < now - e.timestamp
      · rw [if_pos hexp]
        dsimp only
        have := alErase_length_of_lookup _ _ _ hlk
        omega
      · rw [if_neg hexp]
        dsimp only
        rw [alSet_length_of_lookup _ _ e _ hlk]

/-! ## Claim C5 -/

/-- Claim C5, counterexample: `LRUCache.fromObject` writes the snapshot
straight into the backing `Map` without enforcing `maxSize`, so rehydrating
a two-entry snapshot into a cache configured with `maxSize = 1` leaves two
stored entries. -/
theorem fromObject_exceeds_maxSize :
    (lruFromObject ({ maxSize := 1, entries := [] } : LRUCache Nat)
      [("a", 1), ("b", 2)] 0).entries.length = 2 ∧
    ({ maxSize := 1, entries := [] } : LRUCache Nat).maxSize = 1 := by
  constructor <;> rfl

/-- Claim C5, amended: `get`, `set` and `clear` keep the LRU cache within
its (positive) configured maximum — `set` evicting exactly the front entry
of the backing `Map`, which under the stamp-order invariant (established by
the operations themselves) is the least-recently-accessed entry, ties
resolved by insertion order — and the background `cacheTranslation` keeps
its map within `MAX_CACHE_SIZE` whenever the full cache still holds an
entry strictly older than now; but rehydration via `fromObject` does not
enforce the bound (see the counterexample). -/
theorem lru_cache_bound_and_eviction :
    (∀ (c : LRUCache TResult) (k : String) (v : TResult) (t : Nat),
      1 ≤ c.maxSize → c.entries.length ≤ c.maxSize →
      (lruSet c k v t).entries.length ≤ c.maxSize) ∧
    (∀ (c : LRUCache TResult) (k : String) (t : Nat),
      ((lruGet c k t).2).entries.length = c.entries.length) ∧
    (∀ c : LRUCache TResult, (lruClear c).entries.length = 0) ∧
    (∀ (c : LRUCache Nat) (k : String) (v : Nat) (t : Nat)
        (e₀ : LEntry Nat) (rest : List (LEntry Nat)),
      c.entries = e₀ :: rest → StampSorted c.entries →
      c.entries.any (fun e => e.key = k) = false →
      c.maxSize ≤ c.entries.length →
      (lruSet c k v t).entries = rest ++ [⟨k, v, t⟩] ∧
        ∀ e ∈ c.entries, e₀.stamp ≤ e.stamp) ∧
    (∀ (now : Nat) (st : BgSettings) (text sourceLang : String)
        (result : TResult) (cache : List (String × BgEntry)),
      cache.length ≤ MAX_CACHE_SIZE →
      (MAX_CACHE_SIZE ≤ cache.length →
        ∃ kv ∈ cache, kv.2.timestamp < now) →
      ((bgCacheTranslation now st text sourceLang result cache).1).length ≤
        MAX_CACHE_SIZE) :=
  ⟨lruSet_length, lruGet_length, fun _ => rfl, lruSet_evicts_head,
   bgCacheTranslation_length⟩

/-- Witness for C5: inserting a third key into the full two-entry demo
cache stays within the bound and evicts exactly the stale front entry. -/
theorem lru_cache_bound_and_eviction_witness :
    (lruSet lruDemo "c" 3 2).entries.length ≤ 2 ∧
    (lruSet lruDemo "c" 3 2).entries =
      [{ key := "b", value := 2, stamp := 1 }] ++
        [{ key := "c", value := 3, stamp := 2 }] :=
  ⟨lru_cache_bound_and_eviction.2.2.2.1 lruDemo "c" 3 2 _ _ rfl
      (by unfold StampSorted lruDemo
          simp only [List.pairwise_cons]
          exact ⟨fun e he => by
            rw [List.mem_singleton] at he
            rw [he]; exact Nat.zero_le _,
            fun e he => by simp at he, List.Pairwise.nil⟩)
      (by decide) (by decide) |>.1 ▸ (by decide),
   (lru_cache_bound_and_eviction.2.2.2.1 lruDemo "c" 3 2 _ _ rfl
      (by unfold StampSorted lruDemo
          simp only [List.pairwise_cons]
          exact ⟨fun e he => by
            rw [List.mem_singleton] at he
            rw [he]; exact Nat.zero_le _,
            fun e he => by simp at he, List.Pairwise.nil⟩)
      (by decide) (by decide)).1⟩

/-! ## Settings-module cache lemmas -/

/-- An expired item: the settings-module `getCachedTranslation` deletes it
and returns null. -/
theorem sGet_expired (now : Nat) (text sourceLang : String)
    (cache : List (String × SCacheItem)) (item : SCacheItem)
    (htext : ¬ text = "")
    (hlk : alLookup (sourceLang ++ ":" ++ text) cache = some item)
    (hexp : item.expiresAt < now) :
    sGetCachedTranslation now true text sourceLang cache =
      (none, alErase (sourceLang ++ ":" ++ text) cache) := by
  unfold sGetCachedTranslation
  rw [if_neg htext, if_neg (by simp)]
  dsimp only
  rw [hlk]
  dsimp only
  rw [if_pos hexp]

/-- A fresh item: the settings-module `getCachedTranslation` returns the
stored data and refreshes `lastAccessed` in place. -/
theorem sGet_fresh (now : Nat) (text sourceLang : String)
    (cache : List (String × SCacheItem)) (item : SCacheItem)
    (htext : ¬ text = "")
    (hlk : alLookup (sourceLang ++ ":" ++ text) cache = some item)
    (hfresh : ¬ item.expiresAt < now) :
    sGetCachedTranslation now true text sourceLang cache =
      (some item.data,
        alSet (sourceLang ++ ":" ++ text)
          { item with lastAccessed := now } cache) := by
  unfold sGetCachedTranslation
  rw [if_neg htext, if_neg (by simp)]
  dsimp only
  rw [hlk]
  dsimp only
  rw [if_neg hfresh]

/-- An expired entry: the background `getCachedTranslation` deletes it and
returns null. -/
theorem bgGet_expired (now : Nat) (st : BgSettings)
    (text sourceLang : String) (cache : List (String × BgEntry))
    (e : BgEntry) (huse : st.useCache = true)
    (hlk : alLookup (sourceLang ++ ":" ++ text) cache = some e)
    (hexp : st.maxCacheAge * 60 * 60 * 1000 < now - e.timestamp) :
    bgGetCachedTranslation now st text sourceLang cache =
      (none, alErase (sourceLang ++ ":" ++ text) cache) := by
  unfold bgGetCachedTranslation
  rw [if_neg (by simp [huse])]
  dsimp only
  rw [hlk]
  dsimp only
  rw [if_pos hexp]

/-- After a refreshing get, every stored item's `lastAccessed` is at most
the refreshed item's: the fetched entry is the most recently used one in
the eviction order of `pruneCache`. -/
theorem alSet_refresh_mru (k : String) (item : SCacheItem) (now : Nat)
    (cache : List (String × SCacheItem))
    (hla : item.lastAccessed = now)
    (hall : ∀ kv ∈ cache, kv.2.lastAccessed ≤ now) :
    ∀ kv ∈ alSet k item cache, kv.2.lastAccessed ≤ item.lastAccessed := by
  intro kv hkv
  rcases mem_alSet _ _ _ _ hkv with he | he
  · rw [he]
  · rw [hla]; exact hall kv he

/-! ## Claim C8 -/

/-- Claim C8 (TTL expiry on lookup): a get after the entry's expiry time
has passed returns null and deletes the entry (so with unique keys it no
longer looks up); a get before expiry returns the stored result, refreshes
its last-accessed time to now and thereby makes it the most-recently-used
entry in the eviction order; the background variant likewise deletes
entries older than `maxCacheAge` hours; and concretely, with a 1000 ms
TTL, a get at t = 1500 for an entry inserted at t = 0 returns null. -/
theorem cache_ttl_expiry_on_lookup :
    (∀ (now : Nat) (text sourceLang : String)
        (cache : List (String × SCacheItem)) (item : SCacheItem),
      ¬ text = "" →
      alLookup (sourceLang ++ ":" ++ text) cache = some item →
      item.expiresAt < now →
      sGetCachedTranslation now true text sourceLang cache =
        (none, alErase (sourceLang ++ ":" ++ text) cache) ∧
      ((cache.map Prod.fst).Nodup →
        alLookup (sourceLang ++ ":" ++ text)
          (alErase (sourceLang ++ ":" ++ text) cache) = none)) ∧
    (∀ (now : Nat) (text sourceLang : String)
        (cache : List (String × SCacheItem)) (item : SCacheItem),
      ¬ text = "" →
      alLookup (sourceLang ++ ":" ++ text) cache = some item →
      ¬ item.expiresAt < now →
      sGetCachedTranslation now true text sourceLang cache =
        (some item.data,
          alSet (sourceLang ++ ":" ++ text)
            { item with lastAccessed := now } cache) ∧
      ((∀ kv ∈ cache, kv.2.lastAccessed ≤ now) →
        ∀ kv ∈ alSet (sourceLang ++ ":" ++ text)
            { item with lastAccessed := now } cache,
          kv.2.lastAccessed ≤
            ({ item with lastAccessed := now } : SCacheItem).lastAccessed)) ∧
    (∀ (now : Nat) (st : BgSettings) (text sourceLang : String)
        (cache : List (String × BgEntry)) (e : BgEntry),
      st.useCache = true →
      alLookup (sourceLang ++ ":" ++ text) cache = some e →
      st.maxCacheAge * 60 * 60 * 1000 < now - e.timestamp →
      bgGetCachedTranslation now st text sourceLang cache =
        (none, alErase (sourceLang ++ ":" ++ text) cache)) ∧
    sGetCachedTranslation 1500 true "hi" "EN" [("EN:hi", demoItem)] =
      (none, []) := by
  refine ⟨?_, ?_, bgGet_expired, ?_⟩
  · intro now text sourceLang cache item htext hlk hexp
    exact ⟨sGet_expired now text sourceLang cache item htext hlk hexp,
      fun hnd => alLookup_alErase_self _ cache hnd⟩
  · intro now text sourceLang cache item htext hlk hfresh
    exact ⟨sGet_fresh now text sourceLang cache item htext hlk hfresh,
      fun hall => alSet_refresh_mru _ _ now cache rfl hall⟩
  · decide

/-- Witness for C8: a concrete expired get in each cache variant. -/
theorem cache_ttl_expiry_on_lookup_witness :
    sGetCachedTranslation 2000 true "hi" "EN" [("EN:hi", demoItem)] =
      (none, alErase "EN:hi" [("EN:hi", demoItem)]) ∧
    bgGetCachedTranslation 7200001 { useCache := true, maxCacheAge := 2 }
      "hi" "EN" [("EN:hi", demoBgEntry)] =
      (none, alErase "EN:hi" [("EN:hi", demoBgEntry)]) :=
  ⟨(cache_ttl_expiry_on_lookup.1 2000 "hi" "EN" [("EN:hi", demoItem)]
      demoItem (by decide) (by decide) (by decide)).1,
   cache_ttl_expiry_on_lookup.2.2.1 7200001
      { useCache := true, maxCacheAge := 2 } "hi" "EN"
      [("EN:hi", demoBgEntry)] demoBgEntry rfl (by decide) (by decide)⟩

/-! ## Only-success caching lemmas (claim C10) -/

/-- A failed result is never stored by the background `cacheTranslation`. -/
theorem bgCacheTranslation_fail (now : Nat) (st : BgSettings)
    (text sourceLang : String) (result : TResult)
    (cache : List (String × BgEntry)) (h : result.success = false) :
    bgCacheTranslation now st text sourceLang result cache =
      (cache, false) := by
  unfold bgCacheTranslation
  rw [if_pos (by simp [h])]

/-- A failed result is never stored by the settings-module
`cacheTranslation`. -/
theorem sCacheTranslation_fail (now : Nat) (cfg : SSettings)
    (text sourceLang : String) (result : TResult)
    (cache : List (String × SCacheItem)) (h : result.success = false) :
    sCacheTranslation now cfg text sourceLang result cache = cache := by
  unfold sCacheTranslation
  rw [if_pos (by simp [h])]

/-- Every background-cache operation preserves the all-success
invariant. -/
theorem bgApply_allSuccess (cache : List (String × BgEntry)) (op : BgOp)
    (hinv : BgAllSuccess cache) : BgAllSuccess (bgApply cache op) := by
  cases op with
  | put now st text sourceLang result =>
    dsimp only [bgApply]
    unfold bgCacheTranslation
    split_ifs with hg hcap
    · exact hinv
    · have hs : result.success = true := by
        simp only [Bool.or_eq_true, Bool.not_eq_true'] at hg
        push_neg at hg
        exact Bool.not_eq_false _ |>.mp (by simpa using hg.2)
      dsimp only
      intro kv hkv
      rcases mem_alSet _ _ _ _ hkv with he | he
      · rw [he]; exact hs
      · cases hk : (bgOldestKey now cache).1 with
        | none => rw [hk] at he; exact hinv kv he
        | some k₀ =>
          rw [hk] at he
          exact hinv kv (mem_alErase _ _ _ he)
    · have hs : result.success = true := by
        simp only [Bool.or_eq_true, Bool.not_eq_true'] at hg
        push_neg at hg
        exact Bool.not_eq_false _ |>.mp (by simpa using hg.2)
      dsimp only
      intro kv hkv
      rcases mem_alSet _ _ _ _ hkv with he | he
      · rw [he]; exact hs
      · exact hinv kv he
  | get now st text sourceLang =>
    dsimp only [bgApply]
    unfold bgGetCachedTranslation
    split_ifs with hu
    · exact hinv
    · dsimp only
      cases hlk : alLookup (sourceLang ++ ":" ++ text) cache with
      | none => exact hinv
      | some e =>
        dsimp only
        by_cases hexp : st.maxCacheAge * 60 * 60 * 1000 < now - e.timestamp
        · rw [if_pos hexp]
          intro kv hkv; exact hinv kv (mem_alErase _ _ _ hkv)
        · rw [if_neg hexp]
          dsimp only
          intro kv hkv
          rcases mem_alSet _ _ _ _ hkv with he | he
          · rw [he]
            dsimp only
            have hsucc := hinv _ (alLookup_mem _ _ _ hlk)
            by_cases heng : e.translation.engine = none
            · rw [if_pos heng]; exact hsucc
            · rw [if_neg heng]; exact hsucc
          · exact hinv kv he
  | clear =>
    dsimp only [bgApply, bgClearCache]
    intro kv hkv
    simp at hkv

/-- Every cache reachable from empty by put, get and clear operations
contains only successful translations. -/
theorem bgRun_allSuccess (ops : List BgOp) : BgAllSuccess (bgRun ops) := by
  have main : ∀ (cache : List (String × BgEntry)), BgAllSuccess cache →
      BgAllSuccess (ops.foldl bgApply cache) := by
    induction ops with
    | nil => intro c h; exact h
    | cons op rest ih =>
      intro c h
      exact ih _ (bgApply_allSuccess c op h)
  exact main [] (by intro kv hkv; simp at hkv)

/-- A hit on an all-success cache returns a successful result. -/
theorem bgGet_success_of_inv (now : Nat) (st : BgSettings)
    (text sourceLang : String) (cache : List (String × BgEntry))
    (r : TResult) (c' : List (String × BgEntry))
    (hinv : BgAllSuccess cache)
    (h : bgGetCachedTranslation now st text sourceLang cache =
      (some r, c')) : r.success = true := by
  unfold bgGetCachedTranslation at h
  split_ifs at h with hu
  · simp at h
  · dsimp only at h
    cases hlk : alLookup (sourceLang ++ ":" ++ text) cache with
    | none => rw [hlk] at h; simp at h
    | some e =>
      rw [hlk] at h
      dsimp only at h
      by_cases hexp : st.maxCacheAge * 60 * 60 * 1000 < now - e.timestamp
      · rw [if_pos hexp] at h; simp at h
      · rw [if_neg hexp] at h
        have hr : r = (if e.translation.engine = none then
            { e.translation with engine := some "cached" }
            else e.translation) := by
          injection h with h1 h2
          injection h1 with h1
          exact h1.symm
        have hsucc := hinv _ (alLookup_mem _ _ _ hlk)
        rw [hr]
        by_cases heng : e.translation.engine = none
        · rw [if_pos heng]; exact hsucc
        · rw [if_neg heng]; exact hsucc

/-! ## Claim C10 -/

/-- Claim C10 (only successful results are cached): both
`cacheTranslation` implementations leave the cache unchanged for a result
whose success flag is false; consequently every cache reachable from empty
through put, get and clear operations stores only successful translations,
and every result ever returned by a cache lookup on such a cache has
success = true. -/
theorem only_success_cached :
    (∀ (now : Nat) (st : BgSettings) (text sourceLang : String)
        (result : TResult) (cache : List (String × BgEntry)),
      result.success = false →
      bgCacheTranslation now st text sourceLang result cache =
        (cache, false)) ∧
    (∀ (now : Nat) (cfg : SSettings) (text sourceLang : String)
        (result : TResult) (cache : List (String × SCacheItem)),
      result.success = false →
      sCacheTranslation now cfg text sourceLang result cache = cache) ∧
    (∀ ops : List BgOp, BgAllSuccess (bgRun ops)) ∧
    (∀ (ops : List BgOp) (now : Nat) (st : BgSettings)
        (text sourceLang : String) (r : TResult)
        (c' : List (String × BgEntry)),
      bgGetCachedTranslation now st text sourceLang (bgRun ops) =
        (some r, c') → r.success = true) :=
  ⟨bgCacheTranslation_fail, sCacheTranslation_fail, bgRun_allSuccess,
   fun ops now st text sourceLang r c' h =>
     bgGet_success_of_inv now st text sourceLang (bgRun ops) r c'
       (bgRun_allSuccess ops) h⟩

/-- Witness for C10: a failed result leaves a concrete cache untouched,
and a concrete lookup after one successful put returns a success. -/
theorem only_success_cached_witness :
    bgCacheTranslation 0 { useCache := true, maxCacheAge := 24 } "t" "EN"
      failResult [] = ([], false) ∧
    okResult.success = true :=
  ⟨only_success_cached.1 0 _ "t" "EN" failResult [] rfl,
   only_success_cached.2.2.2
     [.put 0 { useCache := true, maxCacheAge := 24 } "hi" "EN" okResult]
     10 { useCache := true, maxCacheAge := 24 } "hi" "EN" okResult
     [("EN:hi", { translation := okResult, timestamp := 10 })]
     (by decide)⟩

end TwitchTranslator
